import Mathlib

/-!
Verification of the engagement-planner plan/step logic from
`src/public/static/app.js`: the data model, the derived statistics
function `computePlanStats`, and the step-editing operations of
`AppState` (`updateStep`, `insertStepAt`, `removeStep`, `moveStep`,
`updateActivePlan`) together with the guardrail block of the input
event listener.

JavaScript numbers that hold step fields are modelled as `Int`;
ISO date strings and the role/status tags stay `String`s and are
compared lexicographically, exactly as `<`/`>` compares them in the
source.  Generated uids and the clock-dependent dates of
`makeBlankPlan` are taken as parameters.
-/

namespace EngagementPlanner

/-- A step record, field for field after `makeStep` in app.js. -/
structure Step where
  id : String
  type : String
  actionTitle : String
  actionDescription : String
  date : String
  progress : Int
  successProbability : Int
  status : String
  review : String
deriving Repr, DecidableEq

/-- A plan record, field for field after `makeBlankPlan` in app.js. -/
structure Plan where
  id : String
  title : String
  startDate : String
  endDate : String
  steps : List Step
deriving Repr, DecidableEq

/-- A partial step object as passed to `makeStep` or `updateStep`;
`none` marks a field that is absent from the patch object. -/
structure StepPatch where
  id : Option String := none
  type : Option String := none
  actionTitle : Option String := none
  actionDescription : Option String := none
  date : Option String := none
  progress : Option Int := none
  successProbability : Option Int := none
  status : Option String := none
  review : Option String := none
deriving Repr, DecidableEq

/-- JavaScript object spread of a step with a partial step object. -/
def applyStepPatch (s : Step) (p : StepPatch) : Step :=
  { id := p.id.getD s.id
    type := p.type.getD s.type
    actionTitle := p.actionTitle.getD s.actionTitle
    actionDescription := p.actionDescription.getD s.actionDescription
    date := p.date.getD s.date
    progress := p.progress.getD s.progress
    successProbability := p.successProbability.getD s.successProbability
    status := p.status.getD s.status
    review := p.review.getD s.review }

/-- `clamp` from app.js; the inputs we model are always finite numbers,
so it is the plain two-sided clamp. -/
def clamp (n mn mx : Int) : Int := max mn (min mx n)

/-- `makeStep(partial)` from app.js: the defaults record spread with the
partial object.  The generated uid is a parameter. -/
def makeStep (freshId : String) (part : StepPatch) : Step :=
  applyStepPatch
    { id := freshId
      type := "intermediate"
      actionTitle := ""
      actionDescription := ""
      date := ""
      progress := 50
      successProbability := 80
      status := "Planned"
      review := "" }
    part

/-- `makeBlankPlan()` from app.js.  The two generated step uids, the plan
uid and the two clock-derived ISO dates (today and today plus 14 days)
are parameters. -/
def makeBlankPlan (planId initialId endId startD endD : String) : Plan :=
  { id := planId
    title := "New Engagement Plan"
    startDate := startD
    endDate := endD
    steps :=
      [ makeStep initialId
          { type := some "initial", actionTitle := some "", actionDescription := some ""
            date := some startD, progress := some 0, successProbability := some 50
            status := some "Planned", review := some "" }
      , makeStep endId
          { type := some "end", actionTitle := some "", actionDescription := some ""
            date := some endD, progress := some 100, successProbability := some 100
            status := some "Planned", review := some "" } ] }

/-- the `s.actionTitle || "(Untitled step)"` fallback of the flag messages. -/
def stepTitleOr (s : Step) : String :=
  if s.actionTitle = "" then "(Untitled step)" else s.actionTitle

/-- One iteration of the date loop in `computePlanStats`: skip steps with
an empty date, else append the before-start and after-end flags. -/
def stepDateFlags (startD endD : String) (s : Step) : List String :=
  if s.date = "" then []
  else
    (if startD ≠ "" ∧ s.date < startD then
      ["\"" ++ stepTitleOr s ++ "\" is before plan start."] else []) ++
    (if endD ≠ "" ∧ endD < s.date then
      ["\"" ++ stepTitleOr s ++ "\" is after plan end."] else [])

/-- the `progresses.some((p, i) => i > 0 && p < progresses[i - 1])` check. -/
def decreasesSomewhere : List Int → Bool
  | a :: b :: rest => decide (b < a) || decreasesSomewhere (b :: rest)
  | _ => false

/-- Result record of `computePlanStats`. -/
structure PlanStats where
  currentProgress : Int
  displayedProbability : Int
  remainingPlanned : Nat
  flags : List String
deriving Repr, DecidableEq

/-- `computePlanStats(plan)` from app.js, statement for statement. -/
def computePlanStats (plan : Plan) : PlanStats :=
  let steps := plan.steps
  let initialStep := steps.find? (fun s => s.type == "initial")
  let endStep := steps.find? (fun s => s.type == "end")
  let concluded := steps.filter (fun s => s.status == "Concluded")
  let currentProgress : Int :=
    match concluded.map Step.progress with
    | [] => 0
    | p :: ps => ps.foldl max p
  let remainingPlanned :=
    (steps.filter (fun s => s.status == "Planned" && s.type != "end")).length
  let heuristicProbability := clamp (100 - (remainingPlanned : Int) * 10) 0 100
  let endProb : Int :=
    match endStep with
    | some e => e.successProbability
    | none => 100
  let displayedProbability := clamp (min endProb heuristicProbability) 0 100
  let dateOrderFlags : List String :=
    if plan.startDate ≠ "" ∧ plan.endDate ≠ "" ∧ plan.endDate < plan.startDate then
      ["Plan start date is after end date."] else []
  let stepFlags := steps.flatMap (stepDateFlags plan.startDate plan.endDate)
  let monotonicFlags : List String :=
    if decreasesSomewhere (steps.map Step.progress) then
      ["Progress decreases between steps. Consider increasing left → right."] else []
  let initialFlags : List String :=
    match initialStep with
    | some i => if i.progress ≠ 0 then ["Initial Step progress should be 0."] else []
    | none => []
  let endFlags : List String :=
    match endStep with
    | some e => if e.progress ≠ 100 then ["End Step progress should be 100."] else []
    | none => []
  { currentProgress := currentProgress
    displayedProbability := displayedProbability
    remainingPlanned := remainingPlanned
    flags := dateOrderFlags ++ stepFlags ++ monotonicFlags ++ initialFlags ++ endFlags }

/-- A partial plan object as passed to `updateActivePlan`. -/
structure PlanPatch where
  id : Option String := none
  title : Option String := none
  startDate : Option String := none
  endDate : Option String := none
  steps : Option (List Step) := none
deriving Repr, DecidableEq

/-- JavaScript object spread of a plan with a partial plan object. -/
def applyPlanPatch (p : Plan) (q : PlanPatch) : Plan :=
  { id := q.id.getD p.id
    title := q.title.getD p.title
    startDate := q.startDate.getD p.startDate
    endDate := q.endDate.getD p.endDate
    steps := q.steps.getD p.steps }

/-- `AppState.updateActivePlan(patch)` restricted to its effect on the
active plan (persistence and notification are out of scope). -/
def updateActivePlan (plan : Plan) (patch : PlanPatch) : Plan :=
  applyPlanPatch plan patch

/-- `AppState.updateStep(stepId, patch)` restricted to its effect on the
active plan: every step whose id matches is spread with the patch. -/
def updateStep (plan : Plan) (stepId : String) (patch : StepPatch) : Plan :=
  { plan with
    steps := plan.steps.map (fun s => if s.id == stepId then applyStepPatch s patch else s) }

/-- `Array.prototype.splice(i, 0, a)` insertion: JavaScript clamps an index
past the end, so the element is appended there. -/
def spliceInsert (l : List α) (i : Nat) (a : α) : List α :=
  l.take i ++ a :: l.drop i

/-- `Math.round(s / 2)` for an integer `s` (JavaScript rounds halves up). -/
def roundHalf (s : Int) : Int := Int.fdiv (s + 1) 2

/-- `AppState.insertStepAt(index)` on the active plan; the new step's
generated uid is a parameter.  `steps[index - 1]` is undefined (hence the
0 default) when `index` is 0. -/
def insertStepAt (plan : Plan) (index : Nat) (newId : String) : Plan :=
  let nextProgressLeft : Int :=
    match index with
    | 0 => 0
    | i + 1 => ((plan.steps[i]?).map Step.progress).getD 0
  let nextProgressRight : Int := ((plan.steps[index]?).map Step.progress).getD 100
  let midProgress := clamp (roundHalf (nextProgressLeft + nextProgressRight)) 0 100
  let newStep := makeStep newId
    { progress := some midProgress
      successProbability := some (clamp (100 - ((plan.steps.length : Int) - 2) * 8) 0 100) }
  updateActivePlan plan { steps := some (spliceInsert plan.steps index newStep) }

/-- `AppState.removeStep(stepId)` on the active plan: a plain filter by id,
with no role guard. -/
def removeStep (plan : Plan) (stepId : String) : Plan :=
  updateActivePlan plan { steps := some (plan.steps.filter (fun s => s.id != stepId)) }

/-- `AppState.moveStep(stepId, dir)` on the active plan. -/
def moveStep (plan : Plan) (stepId : String) (dir : Int) : Plan :=
  match plan.steps.findIdx? (fun s => s.id == stepId) with
  | none => plan
  | some idx =>
    match plan.steps[idx]? with
    | none => plan
    | some step =>
      if step.type ≠ "intermediate" then plan
      else
        let minIdx : Int := 1
        let maxIdx : Int := (plan.steps.length : Int) - 2
        let target : Int := (idx : Int) + dir
        if target < minIdx ∨ maxIdx < target then plan
        else
          match plan.steps[target.toNat]? with
          | none => plan
          | some other =>
            updateActivePlan plan
              { steps := some ((plan.steps.set idx other).set target.toNat step) }

/-- Value carried by a DOM input event: number inputs arrive parsed as
integers, everything else as a raw string. -/
inductive FieldValue where
  | str (s : String)
  | num (n : Int)
deriving Repr, DecidableEq

/-- the single-field patch object built by the input listener. -/
def mkFieldPatch : String → FieldValue → StepPatch
  | "actionTitle", FieldValue.str v => { actionTitle := some v }
  | "actionDescription", FieldValue.str v => { actionDescription := some v }
  | "date", FieldValue.str v => { date := some v }
  | "status", FieldValue.str v => { status := some v }
  | "review", FieldValue.str v => { review := some v }
  | "progress", FieldValue.num v => { progress := some v }
  | "successProbability", FieldValue.num v => { successProbability := some v }
  | _, _ => {}

/-- the guardrail block of the input listener (app.js lines 963-970):
looks up the step and overrides the locked fields inside the patch. -/
def guardPatch (plan : Plan) (stepId field : String) (patch : StepPatch) : StepPatch :=
  match plan.steps.find? (fun s => s.id == stepId) with
  | none => patch
  | some step =>
    let p1 := if step.type = "initial" ∧ field = "progress" then
      { patch with progress := some 0 } else patch
    let p2 := if step.type = "end" ∧ field = "progress" then
      { p1 with progress := some 100 } else p1
    let p3 := if step.type = "end" ∧ field = "successProbability" then
      { p2 with successProbability := some 100 } else p2
    p3

/-- the step branch of the input listener: build the single-field patch,
apply the guardrails, then call `updateStep`. -/
def handleStepInput (plan : Plan) (stepId field : String) (value : FieldValue) : Plan :=
  updateStep plan stepId (guardPatch plan stepId field (mkFieldPatch field value))

/-- the boundary invariant of the data model: `steps` is non-empty, its
first element has role initial and its last element has role end. -/
def boundaryInv (plan : Plan) : Prop :=
  plan.steps ≠ [] ∧ plan.steps.head?.map Step.type = some "initial" ∧
    plan.steps.getLast?.map Step.type = some "end"

instance (plan : Plan) : Decidable (boundaryInv plan) := by
  unfold boundaryInv; infer_instance

/-- every step's role is one of the three roles of the data model. -/
def rolesValid (plan : Plan) : Prop :=
  ∀ s ∈ plan.steps, s.type = "initial" ∨ s.type = "intermediate" ∨ s.type = "end"

instance (plan : Plan) : Decidable (rolesValid plan) := by
  unfold rolesValid; infer_instance

/-- A concrete blank plan used by witnesses and counterexamples. -/
def blankEx : Plan :=
  makeBlankPlan "plan1" "stepI" "stepE" "2026-01-01" "2026-01-15"

/-- the initial step of `blankEx`, written out. -/
def blankInitStep : Step :=
  { id := "stepI", type := "initial", actionTitle := "", actionDescription := ""
    date := "2026-01-01", progress := 0, successProbability := 50
    status := "Planned", review := "" }

/-- the end step of `blankEx`, written out. -/
def blankEndStep : Step :=
  { id := "stepE", type := "end", actionTitle := "", actionDescription := ""
    date := "2026-01-15", progress := 100, successProbability := 100
    status := "Planned", review := "" }

/-- A concrete intermediate step. -/
def midStep : Step :=
  { id := "stepM", type := "intermediate", actionTitle := "Mid", actionDescription := ""
    date := "", progress := 50, successProbability := 80
    status := "Planned", review := "" }

/-- A concrete three-step plan: initial, one intermediate, end. -/
def ex3 : Plan :=
  { id := "plan3", title := "Three", startDate := "2026-01-01", endDate := "2026-01-15"
    steps := [blankInitStep, midStep, blankEndStep] }

/-- A concrete intermediate step with progress 20. -/
def stepA2060 : Step :=
  { id := "sA", type := "intermediate", actionTitle := "A", actionDescription := ""
    date := "", progress := 20, successProbability := 70
    status := "Planned", review := "" }

/-- A concrete intermediate step with progress 60. -/
def stepB2060 : Step :=
  { id := "sB", type := "intermediate", actionTitle := "B", actionDescription := ""
    date := "", progress := 60, successProbability := 75
    status := "Planned", review := "" }

/-- A concrete four-step plan whose interior neighbors have progress 20 and 60. -/
def ex2060 : Plan :=
  { id := "plan4", title := "Four", startDate := "2026-01-01", endDate := "2026-01-15"
    steps := [blankInitStep, stepA2060, stepB2060, blankEndStep] }

section ListHelpers

variable {α : Type _}

lemma getLast?_cons_of_ne_nil {a : α} {l : List α} (h : l ≠ []) :
    (a :: l).getLast? = l.getLast? := by
  cases l with
  | nil => exact absurd rfl h
  | cons b t => exact List.getLast?_cons_cons

lemma head?_filter_of {p : α → Bool} {l : List α} {a : α}
    (h : l.head? = some a) (hp : p a = true) : (l.filter p).head? = some a := by
  cases l with
  | nil => simp at h
  | cons x t =>
    simp only [List.head?_cons, Option.some.injEq] at h
    subst h
    simp [List.filter_cons, hp]

lemma getLast?_filter_of {p : α → Bool} {l : List α} {a : α}
    (h : l.getLast? = some a) (hp : p a = true) : (l.filter p).getLast? = some a := by
  induction l with
  | nil => simp at h
  | cons x t ih =>
    cases t with
    | nil =>
      simp only [List.getLast?_singleton, Option.some.injEq] at h
      subst h
      simp [List.filter_cons, hp]
    | cons y u =>
      rw [List.getLast?_cons_cons] at h
      have hrec := ih h
      rw [List.filter_cons]
      by_cases hx : p x
      · rw [if_pos hx,
          getLast?_cons_of_ne_nil (by intro hnil; rw [hnil] at hrec; simp at hrec)]
        exact hrec
      · rw [if_neg hx]
        exact hrec

lemma spliceInsert_length (l : List α) (i : Nat) (a : α) :
    (spliceInsert l i a).length = l.length + 1 := by
  simp [spliceInsert]
  omega

lemma spliceInsert_head?_of_pos {l : List α} {i : Nat} (a : α) (hi : 0 < i) (hl : l ≠ []) :
    (spliceInsert l i a).head? = l.head? := by
  cases l with
  | nil => exact absurd rfl hl
  | cons x t =>
    obtain ⟨j, rfl⟩ : ∃ j, i = j + 1 := ⟨i - 1, by omega⟩
    simp [spliceInsert]

lemma spliceInsert_getLast?_of_lt {l : List α} {i : Nat} (a : α) (hi : i < l.length) :
    (spliceInsert l i a).getLast? = l.getLast? := by
  have hd : l.drop i ≠ [] := by
    simp only [ne_eq, List.drop_eq_nil_iff, not_le]
    omega
  obtain ⟨b, hb⟩ := Option.isSome_iff_exists.mp (List.getLast?_isSome.mpr hd)
  have hlast : l.getLast? = some b := by
    conv_lhs => rw [← List.take_append_drop i l]
    rw [List.getLast?_append, hb]
    rfl
  simp only [spliceInsert]
  rw [List.getLast?_append, getLast?_cons_of_ne_nil hd, hb, hlast]
  rfl

lemma spliceInsert_getElem?_self {l : List α} {i : Nat} (a : α) (hi : i ≤ l.length) :
    (spliceInsert l i a)[i]? = some a := by
  have h1 : (l.take i).length = i := by
    simp [List.length_take, Nat.min_eq_left hi]
  simp only [spliceInsert]
  rw [List.getElem?_append_right (by rw [h1]), h1]
  simp

lemma spliceInsert_append_of_le {l : List α} {i : Nat} (a : α) (hi : l.length ≤ i) :
    spliceInsert l i a = l ++ [a] := by
  simp only [spliceInsert]
  rw [List.take_of_length_le hi, List.drop_eq_nil_of_le hi]

lemma set_head?_of_ne {l : List α} {i : Nat} (x : α) (hi : i ≠ 0) :
    (l.set i x).head? = l.head? := by
  rw [List.head?_eq_getElem?, List.head?_eq_getElem?, List.getElem?_set_ne (by omega)]

lemma set_getLast?_of_ne {l : List α} {i : Nat} (x : α) (hi : i + 1 ≠ l.length) :
    (l.set i x).getLast? = l.getLast? := by
  cases l with
  | nil => simp
  | cons b t =>
    rw [List.getLast?_eq_getElem?, List.getLast?_eq_getElem?, List.length_set,
      List.getElem?_set_ne (by simp only [List.length_cons] at hi ⊢; omega)]

lemma decreasesSomewhere_eq_zip (ps : List Int) :
    decreasesSomewhere ps = (ps.zip ps.tail).any (fun q => decide (q.2 < q.1)) := by
  induction ps with
  | nil => rfl
  | cons a t ih =>
    cases t with
    | nil => rfl
    | cons b u =>
      simp only [decreasesSomewhere, List.tail_cons, List.zip_cons_cons, List.any_cons]
      rw [ih]
      simp [List.tail_cons]

end ListHelpers

section OpHelpers

lemma insertStepAt_steps_eq (plan : Plan) (idx : Nat) (newId : String) :
    ∃ ns : Step, ns.type = "intermediate" ∧
      (insertStepAt plan idx newId).steps = spliceInsert plan.steps idx ns :=
  ⟨_, rfl, rfl⟩

lemma removeStep_steps (plan : Plan) (stepId : String) :
    (removeStep plan stepId).steps = plan.steps.filter (fun s => s.id != stepId) := rfl

lemma updateStep_steps (plan : Plan) (stepId : String) (patch : StepPatch) :
    (updateStep plan stepId patch).steps =
      plan.steps.map (fun s => if s.id == stepId then applyStepPatch s patch else s) := rfl

lemma updateActivePlan_steps_none (plan : Plan) (patch : PlanPatch) (h : patch.steps = none) :
    (updateActivePlan plan patch).steps = plan.steps := by
  simp [updateActivePlan, applyPlanPatch, h]

lemma moveStep_findIdx_none {plan : Plan} {stepId : String} (dir : Int)
    (h : plan.steps.findIdx? (fun s => s.id == stepId) = none) :
    moveStep plan stepId dir = plan := by
  unfold moveStep
  rw [h]

lemma moveStep_get_none {plan : Plan} {stepId : String} (dir : Int) {idx : Nat}
    (h1 : plan.steps.findIdx? (fun s => s.id == stepId) = some idx)
    (h2 : plan.steps[idx]? = none) :
    moveStep plan stepId dir = plan := by
  unfold moveStep
  simp only [h1, h2]

lemma moveStep_not_intermediate {plan : Plan} {stepId : String} (dir : Int) {idx : Nat} {st : Step}
    (h1 : plan.steps.findIdx? (fun s => s.id == stepId) = some idx)
    (h2 : plan.steps[idx]? = some st)
    (h3 : st.type ≠ "intermediate") :
    moveStep plan stepId dir = plan := by
  unfold moveStep
  simp only [h1, h2]
  simp [h3]

lemma moveStep_target_out {plan : Plan} {stepId : String} (dir : Int) {idx : Nat} {st : Step}
    (h1 : plan.steps.findIdx? (fun s => s.id == stepId) = some idx)
    (h2 : plan.steps[idx]? = some st)
    (hout : (idx : Int) + dir < 1 ∨ ((plan.steps.length : Int) - 2) < (idx : Int) + dir) :
    moveStep plan stepId dir = plan := by
  unfold moveStep
  simp only [h1, h2]
  by_cases h3 : st.type ≠ "intermediate"
  · simp [h3]
  · simp [h3, hout]

lemma moveStep_swap {plan : Plan} {stepId : String} (dir : Int) {idx : Nat} {st other : Step}
    (h1 : plan.steps.findIdx? (fun s => s.id == stepId) = some idx)
    (h2 : plan.steps[idx]? = some st)
    (h3 : st.type = "intermediate")
    (h4 : 1 ≤ (idx : Int) + dir)
    (h5 : (idx : Int) + dir ≤ (plan.steps.length : Int) - 2)
    (h6 : plan.steps[((idx : Int) + dir).toNat]? = some other) :
    (moveStep plan stepId dir).steps =
      (plan.steps.set idx other).set ((idx : Int) + dir).toNat st := by
  unfold moveStep
  simp only [h1, h2]
  have hcond : ¬((idx : Int) + dir < 1 ∨ ((plan.steps.length : Int) - 2) < (idx : Int) + dir) := by
    push_neg
    exact ⟨h4, h5⟩
  simp [h3, hcond, h6, updateActivePlan, applyPlanPatch]

end OpHelpers

section InvHelpers

lemma mem_of_head?_eq_some {α : Type _} {l : List α} {a : α} (h : l.head? = some a) :
    a ∈ l := by
  cases l with
  | nil => simp at h
  | cons x t =>
    simp only [List.head?_cons, Option.some.injEq] at h
    exact h ▸ List.mem_cons_self x t

lemma mem_of_getLast?_eq_some {α : Type _} {l : List α} {a : α} (h : l.getLast? = some a) :
    a ∈ l := by
  induction l with
  | nil => simp at h
  | cons x t ih =>
    cases t with
    | nil =>
      simp only [List.getLast?_singleton, Option.some.injEq] at h
      exact h ▸ List.mem_cons_self x []
    | cons y u =>
      rw [List.getLast?_cons_cons] at h
      exact List.mem_cons_of_mem x (ih h)

lemma boundaryInv_of_steps_eq {p q : Plan} (h : q.steps = p.steps) (hinv : boundaryInv p) :
    boundaryInv q := by
  obtain ⟨h1, h2, h3⟩ := hinv
  exact ⟨by rw [h]; exact h1, by rw [h]; exact h2, by rw [h]; exact h3⟩

lemma insertStepAt_interior_inv (plan : Plan) (idx : Nat) (newId : String)
    (h0 : 0 < idx) (hlen : idx < plan.steps.length) (hinv : boundaryInv plan) :
    boundaryInv (insertStepAt plan idx newId) := by
  obtain ⟨ns, hnst, hns⟩ := insertStepAt_steps_eq plan idx newId
  obtain ⟨hne, hh, hl⟩ := hinv
  have hlen1 := spliceInsert_length plan.steps idx ns
  refine ⟨?_, ?_, ?_⟩
  · rw [hns]
    intro hnil
    rw [hnil] at hlen1
    simp at hlen1
  · rw [hns, spliceInsert_head?_of_pos _ h0 hne]
    exact hh
  · rw [hns, spliceInsert_getLast?_of_lt _ hlen]
    exact hl

lemma removeStep_inv (plan : Plan) (stepId : String) (hinv : boundaryInv plan)
    (hguard : ∀ s ∈ plan.steps, s.id = stepId → s.type = "intermediate") :
    boundaryInv (removeStep plan stepId) := by
  obtain ⟨hne, hh, hl⟩ := hinv
  obtain ⟨a, ha, hat⟩ := Option.map_eq_some'.mp hh
  obtain ⟨b, hb, hbt⟩ := Option.map_eq_some'.mp hl
  have haid : a.id ≠ stepId := by
    intro he
    have h2 := hguard a (mem_of_head?_eq_some ha) he
    rw [h2] at hat
    exact absurd hat (by decide)
  have hbid : b.id ≠ stepId := by
    intro he
    have h2 := hguard b (mem_of_getLast?_eq_some hb) he
    rw [h2] at hbt
    exact absurd hbt (by decide)
  have hpa : ((fun s => s.id != stepId) a) = true := by simp [haid]
  have hpb : ((fun s => s.id != stepId) b) = true := by simp [hbid]
  refine ⟨?_, ?_, ?_⟩
  · rw [removeStep_steps]
    intro hnil
    have hhd := @head?_filter_of Step (fun s => s.id != stepId) plan.steps a ha hpa
    rw [hnil] at hhd
    simp at hhd
  · rw [removeStep_steps, @head?_filter_of Step (fun s => s.id != stepId) plan.steps a ha hpa]
    simp [hat]
  · rw [removeStep_steps, @getLast?_filter_of Step (fun s => s.id != stepId) plan.steps b hb hpb]
    simp [hbt]

lemma moveStep_inv (plan : Plan) (stepId : String) (dir : Int) (hinv : boundaryInv plan) :
    boundaryInv (moveStep plan stepId dir) := by
  cases h1 : plan.steps.findIdx? (fun s => s.id == stepId) with
  | none =>
    rw [moveStep_findIdx_none dir h1]
    exact hinv
  | some idx =>
    cases h2 : plan.steps[idx]? with
    | none =>
      rw [moveStep_get_none dir h1 h2]
      exact hinv
    | some st =>
      by_cases h3 : st.type = "intermediate"
      case neg =>
        rw [moveStep_not_intermediate dir h1 h2 h3]
        exact hinv
      case pos =>
        by_cases h4 : ((idx : Int) + dir < 1 ∨ ((plan.steps.length : Int) - 2) < (idx : Int) + dir)
        · rw [moveStep_target_out dir h1 h2 h4]
          exact hinv
        · push_neg at h4
          obtain ⟨h4a, h4b⟩ := h4
          obtain ⟨hne, hh, hl⟩ := hinv
          obtain ⟨a, ha, hat⟩ := Option.map_eq_some'.mp hh
          obtain ⟨b, hb, hbt⟩ := Option.map_eq_some'.mp hl
          have hidxlt : idx < plan.steps.length := (List.getElem?_eq_some_iff.mp h2).1
          have htn : ((((idx : Int) + dir).toNat : Int)) = (idx : Int) + dir :=
        Int.toNat_of_nonneg (by omega)
          have hidx0 : idx ≠ 0 := by
            intro h0
            subst h0
            rw [List.head?_eq_getElem?, h2] at ha
            have hast : a = st := by
              rw [Option.some.injEq] at ha
              exact ha.symm
            rw [hast, h3] at hat
            exact absurd hat (by decide)
          have hidxlast : idx + 1 ≠ plan.steps.length := by
            intro hL
            rw [List.getLast?_eq_getElem?] at hb
            have hll : plan.steps.length - 1 = idx := by omega
            rw [hll, h2] at hb
            have hbst : b = st := by
              rw [Option.some.injEq] at hb
              exact hb.symm
            rw [hbst, h3] at hbt
            exact absurd hbt (by decide)
          have ht0 : ((idx : Int) + dir).toNat ≠ 0 := by omega
          have htlast : ((idx : Int) + dir).toNat + 1 ≠ plan.steps.length := by omega
          have htlt : ((idx : Int) + dir).toNat < plan.steps.length := by omega
          obtain ⟨other, hother⟩ : ∃ o, plan.steps[((idx : Int) + dir).toNat]? = some o :=
            ⟨_, List.getElem?_eq_getElem htlt⟩
          have hswap := moveStep_swap dir h1 h2 h3 h4a h4b hother
          refine ⟨?_, ?_, ?_⟩
          · rw [hswap]
            intro hnil
            have hlen2 : ((plan.steps.set idx other).set ((idx : Int) + dir).toNat st).length =
                plan.steps.length := by simp
            rw [hnil] at hlen2
            simp at hlen2
            rw [← hlen2] at hidxlt
            exact absurd hidxlt (by omega)
          · rw [hswap, set_head?_of_ne _ ht0, set_head?_of_ne _ hidx0]
            exact hh
          · rw [hswap, set_getLast?_of_ne _ (by rw [List.length_set]; exact htlast),
              set_getLast?_of_ne _ hidxlast]
            exact hl

lemma updateStep_inv (plan : Plan) (stepId : String) (patch : StepPatch)
    (hp : patch.type = none) (hinv : boundaryInv plan) :
    boundaryInv (updateStep plan stepId patch) := by
  obtain ⟨hne, hh, hl⟩ := hinv
  have htype : ∀ s : Step, (if s.id == stepId then applyStepPatch s patch else s).type = s.type := by
    intro s
    by_cases h : (s.id == stepId) = true
    · simp [h, applyStepPatch, hp]
    · simp [h]
  refine ⟨?_, ?_, ?_⟩
  · rw [updateStep_steps]
    simp [hne]
  · rw [updateStep_steps, List.head?_map]
    obtain ⟨a, ha, hat⟩ := Option.map_eq_some'.mp hh
    rw [ha]
    simp only [Option.map_some']
    rw [htype a, hat]
  · rw [updateStep_steps, List.getLast?_map]
    obtain ⟨b, hb, hbt⟩ := Option.map_eq_some'.mp hl
    rw [hb]
    simp only [Option.map_some']
    rw [htype b, hbt]

end InvHelpers

section PatchHelpers

lemma updateStep_progress_of_patch (plan : Plan) (stepId : String) (patch : StepPatch)
    (n : Int) (hp : patch.progress = some n) :
    ∀ s' ∈ (updateStep plan stepId patch).steps, s'.id = stepId → s'.progress = n := by
  intro s' hs' hid
  rw [updateStep_steps] at hs'
  obtain ⟨s, hs, rfl⟩ := List.mem_map.mp hs'
  by_cases h : s.id = stepId
  · have hb : (s.id == stepId) = true := by simp [h]
    simp [hb, applyStepPatch, hp]
  · have hb : (s.id == stepId) = false := by simp [h]
    simp only [hb, Bool.false_eq_true, if_false] at hid ⊢
    exact absurd hid h

lemma updateStep_successProbability_of_patch (plan : Plan) (stepId : String) (patch : StepPatch)
    (n : Int) (hp : patch.successProbability = some n) :
    ∀ s' ∈ (updateStep plan stepId patch).steps, s'.id = stepId → s'.successProbability = n := by
  intro s' hs' hid
  rw [updateStep_steps] at hs'
  obtain ⟨s, hs, rfl⟩ := List.mem_map.mp hs'
  by_cases h : s.id = stepId
  · have hb : (s.id == stepId) = true := by simp [h]
    simp [hb, applyStepPatch, hp]
  · have hb : (s.id == stepId) = false := by simp [h]
    simp only [hb, Bool.false_eq_true, if_false] at hid ⊢
    exact absurd hid h

lemma guardPatch_initial_progress (plan : Plan) (stepId : String) (st : Step)
    (patch : StepPatch)
    (hfind : plan.steps.find? (fun s => s.id == stepId) = some st)
    (hty : st.type = "initial") :
    (guardPatch plan stepId "progress" patch).progress = some 0 := by
  simp [guardPatch, hfind, hty]

lemma guardPatch_end_progress (plan : Plan) (stepId : String) (st : Step)
    (patch : StepPatch)
    (hfind : plan.steps.find? (fun s => s.id == stepId) = some st)
    (hty : st.type = "end") :
    (guardPatch plan stepId "progress" patch).progress = some 100 := by
  simp [guardPatch, hfind, hty]

lemma guardPatch_end_successProbability (plan : Plan) (stepId : String) (st : Step)
    (patch : StepPatch)
    (hfind : plan.steps.find? (fun s => s.id == stepId) = some st)
    (hty : st.type = "end") :
    (guardPatch plan stepId "successProbability" patch).successProbability = some 100 := by
  simp [guardPatch, hfind, hty]

end PatchHelpers

/-- C3 counterexample: `AppState.updateStep` itself applies no locking.
Patching the blank plan's `initial` step with progress 50 through
`updateStep` leaves progress 50, not 0, refuting the claim that the step
produced by `updateStep` has progress 0 whenever the role is `initial`
and `progress` is in the patch. -/
theorem updateStep_no_locking_cex :
    ((blankEx.steps.find? (fun s => s.id == "stepI")).map Step.type = some "initial") ∧
    (((updateStep blankEx "stepI" { progress := some 50 }).steps.find?
        (fun s => s.id == "stepI")).map Step.progress = some 50) := by
  constructor
  · decide
  · decide

/-- C3 (amended): locking lives in the input event listener, not in
`updateStep`.  For the handler path (`handleStepInput`), whenever the step
found for `stepId` has role `initial` and the patched field is `progress`,
every step with that id in the result has progress 0; with role `end` the
patched `progress` is forced to 100 and the patched `successProbability`
to 100 — regardless of the value carried by the input event. -/
theorem handleStepInput_locking (plan : Plan) (stepId : String) (v : FieldValue) (st : Step)
    (hfind : plan.steps.find? (fun s => s.id == stepId) = some st) :
    (st.type = "initial" → ∀ s' ∈ (handleStepInput plan stepId "progress" v).steps,
      s'.id = stepId → s'.progress = 0) ∧
    (st.type = "end" → ∀ s' ∈ (handleStepInput plan stepId "progress" v).steps,
      s'.id = stepId → s'.progress = 100) ∧
    (st.type = "end" → ∀ s' ∈ (handleStepInput plan stepId "successProbability" v).steps,
      s'.id = stepId → s'.successProbability = 100) := by
  refine ⟨fun hty => ?_, fun hty => ?_, fun hty => ?_⟩
  · exact updateStep_progress_of_patch plan stepId _ 0
      (guardPatch_initial_progress plan stepId st _ hfind hty)
  · exact updateStep_progress_of_patch plan stepId _ 100
      (guardPatch_end_progress plan stepId st _ hfind hty)
  · exact updateStep_successProbability_of_patch plan stepId _ 100
      (guardPatch_end_successProbability plan stepId st _ hfind hty)

/-- C3 witness: the amended locking theorem applied to the blank plan's
initial step with an input value of 77. -/
theorem handleStepInput_locking_witness :
    (blankInitStep.type = "initial" →
      ∀ s' ∈ (handleStepInput blankEx "stepI" "progress" (FieldValue.num 77)).steps,
        s'.id = "stepI" → s'.progress = 0) ∧
    (blankInitStep.type = "end" →
      ∀ s' ∈ (handleStepInput blankEx "stepI" "progress" (FieldValue.num 77)).steps,
        s'.id = "stepI" → s'.progress = 100) ∧
    (blankInitStep.type = "end" →
      ∀ s' ∈ (handleStepInput blankEx "stepI" "successProbability" (FieldValue.num 77)).steps,
        s'.id = "stepI" → s'.successProbability = 100) :=
  handleStepInput_locking blankEx "stepI" (FieldValue.num 77) blankInitStep (by decide)

/-- C4 counterexample: `removeStep` filters purely by id, so calling it
with the id of the blank plan's `initial` step removes that step: the
sequence drops to a single element, refuting both the claimed no-op on
boundary roles and the claimed lower bound of 2. -/
theorem removeStep_initial_cex :
    boundaryInv blankEx ∧
    (removeStep blankEx "stepI").steps.length = 1 ∧
    (removeStep blankEx "stepI").steps ≠ blankEx.steps := by
  refine ⟨by decide, by decide, by decide⟩

/-- C4 (amended): `removeStep` removes the step carrying the given id
regardless of its role (boundary steps included; the UI merely never
offers removal for them).  When the id occurs on exactly one step the
result is a sublist of the original (relative order preserved) of length
exactly one less, and no remaining step carries the id. -/
theorem removeStep_removes_by_id (plan : Plan) (stepId : String)
    (hcount : plan.steps.countP (fun s => s.id == stepId) = 1) :
    (removeStep plan stepId).steps.Sublist plan.steps ∧
    (removeStep plan stepId).steps.length + 1 = plan.steps.length ∧
    ∀ s ∈ (removeStep plan stepId).steps, s.id ≠ stepId := by
  have key : ∀ l : List Step,
      (l.filter (fun s => s.id != stepId)).length + l.countP (fun s => s.id == stepId) =
        l.length := by
    intro l
    induction l with
    | nil => rfl
    | cons x t ih =>
      by_cases h : (x.id == stepId) = true
      · have hb : (x.id != stepId) = false := by simp [bne, h]
        rw [List.filter_cons, List.countP_cons]
        simp only [hb, Bool.false_eq_true, if_false, h, if_true, List.length_cons]
        omega
      · have hb : (x.id != stepId) = true := by simp [bne, h]
        rw [List.filter_cons, List.countP_cons]
        simp only [hb, if_true, h, Bool.false_eq_true, if_false, List.length_cons]
        omega
  refine ⟨?_, ?_, ?_⟩
  · rw [removeStep_steps]
    exact List.filter_sublist _
  · have := key plan.steps
    rw [hcount] at this
    rw [removeStep_steps]
    exact this
  · intro s hs
    rw [removeStep_steps] at hs
    have := (List.mem_filter.mp hs).2
    simpa using this

/-- C4 witness: removing the single intermediate step of a three-step plan. -/
theorem removeStep_removes_by_id_witness :
    (removeStep ex3 "stepM").steps.Sublist ex3.steps ∧
    (removeStep ex3 "stepM").steps.length + 1 = ex3.steps.length ∧
    (∀ s ∈ (removeStep ex3 "stepM").steps, s.id ≠ "stepM") :=
  removeStep_removes_by_id ex3 "stepM" (by decide)

/-- C5 counterexample: `insertStepAt` performs no index guard.  Inserting
at index 0 on the blank plan yields a plan whose first step is the new
`intermediate` step — a step now precedes the `initial` step and the
boundary invariant is broken, refuting the claimed reject-or-clamp. -/
theorem insertStepAt_zero_cex :
    boundaryInv blankEx ∧
    ((insertStepAt blankEx 0 "newA").steps.head?.map Step.type = some "intermediate") ∧
    ¬ boundaryInv (insertStepAt blankEx 0 "newA") := by
  refine ⟨by decide, by decide, by decide⟩

/-- C5 (amended): `insertStepAt` splices at the given index with no
guard: index 0 places the new intermediate step before the initial step,
an index at or past the length appends it after the end step (splice
clamps), and only strictly interior indices preserve the boundary
invariant. -/
theorem insertStepAt_no_guard (plan : Plan) (newId : String) :
    ((insertStepAt plan 0 newId).steps.head?.map Step.type = some "intermediate") ∧
    (∀ idx, plan.steps.length ≤ idx →
      (insertStepAt plan idx newId).steps.getLast?.map Step.type = some "intermediate") ∧
    (∀ idx, 0 < idx → idx < plan.steps.length → boundaryInv plan →
      boundaryInv (insertStepAt plan idx newId)) := by
  refine ⟨?_, ?_, ?_⟩
  · obtain ⟨ns, hnst, hns⟩ := insertStepAt_steps_eq plan 0 newId
    rw [hns]
    simp [spliceInsert, hnst]
  · intro idx hidx
    obtain ⟨ns, hnst, hns⟩ := insertStepAt_steps_eq plan idx newId
    rw [hns, spliceInsert_append_of_le _ hidx]
    simp [List.getLast?_concat, hnst]
  · intro idx h0 hlen hinv
    obtain ⟨ns, hnst, hns⟩ := insertStepAt_steps_eq plan idx newId
    obtain ⟨hne, hh, hl⟩ := hinv
    have hlen1 := spliceInsert_length plan.steps idx ns
    refine ⟨?_, ?_, ?_⟩
    · rw [hns]
      intro hnil
      rw [hnil] at hlen1
      simp at hlen1
    · rw [hns, spliceInsert_head?_of_pos _ h0 hne]
      exact hh
    · rw [hns, spliceInsert_getLast?_of_lt _ hlen]
      exact hl

/-- C5 witness: the amended index behaviour at indices 0, 5 and 1 of the
blank plan. -/
theorem insertStepAt_no_guard_witness :
    ((insertStepAt blankEx 0 "newA").steps.head?.map Step.type = some "intermediate") ∧
    ((insertStepAt blankEx 5 "newA").steps.getLast?.map Step.type = some "intermediate") ∧
    boundaryInv (insertStepAt blankEx 1 "newA") :=
  ⟨(insertStepAt_no_guard blankEx "newA").1,
   (insertStepAt_no_guard blankEx "newA").2.1 5 (by decide),
   (insertStepAt_no_guard blankEx "newA").2.2 1 (by decide) (by decide) (by decide)⟩

/-- C7: numeric outputs of `computePlanStats`.  `currentProgress` is the
maximum progress over Concluded steps (0 when none), `remainingPlanned`
counts Planned steps whose role is not `end`, and `displayedProbability`
is `clamp(min(endProb, clamp(100 - remainingPlanned * 10, 0, 100)), 0, 100)`
with `endProb` the first `end` step's `successProbability`, defaulting to
100 when no end step exists. -/
theorem stats_numeric_outputs (plan : Plan) :
    ((computePlanStats plan).currentProgress =
      (match (plan.steps.filter (fun s => s.status == "Concluded")).map Step.progress with
        | [] => 0
        | p :: ps => ps.foldl max p)) ∧
    ((computePlanStats plan).remainingPlanned =
      plan.steps.countP (fun s => s.status == "Planned" && s.type != "end")) ∧
    ((computePlanStats plan).displayedProbability =
      clamp
        (min (((plan.steps.find? (fun s => s.type == "end")).map Step.successProbability).getD 100)
          (clamp (100 - (plan.steps.countP (fun s => s.status == "Planned" && s.type != "end") : Int) * 10)
            0 100))
        0 100) := by
  refine ⟨rfl, ?_, ?_⟩
  · simp [computePlanStats, List.countP_eq_length_filter]
  · simp only [computePlanStats, List.countP_eq_length_filter]
    cases hfind : plan.steps.find? (fun s => s.type == "end") <;> simp [hfind]

/-- C8: the step inserted by `insertStepAt` at an interior index takes as
progress the rounded midpoint of its two neighbors' progress clamped to
[0,100], and as success probability `clamp(100 - (stepCount - 2) * 8, 0, 100)`
computed from the step count before insertion. -/
theorem insertStepAt_defaults (plan : Plan) (idx : Nat) (newId : String) (sl sr : Step)
    (h0 : 0 < idx)
    (hl : plan.steps[idx - 1]? = some sl)
    (hr : plan.steps[idx]? = some sr) :
    (((insertStepAt plan idx newId).steps[idx]?).map Step.progress =
      some (clamp (Int.fdiv (sl.progress + sr.progress + 1) 2) 0 100)) ∧
    (((insertStepAt plan idx newId).steps[idx]?).map Step.successProbability =
      some (clamp (100 - ((plan.steps.length : Int) - 2) * 8) 0 100)) := by
  obtain ⟨j, rfl⟩ : ∃ j, idx = j + 1 := ⟨idx - 1, by omega⟩
  have hjl : j + 1 - 1 = j := by omega
  rw [hjl] at hl
  have hlt : j + 1 < plan.steps.length := by
    by_contra hc
    push_neg at hc
    rw [List.getElem?_eq_none hc] at hr
    exact Option.noConfusion hr
  have hsteps : (insertStepAt plan (j + 1) newId).steps =
      spliceInsert plan.steps (j + 1)
        (makeStep newId
          { progress := some (clamp (roundHalf (sl.progress + sr.progress)) 0 100)
            successProbability :=
              some (clamp (100 - ((plan.steps.length : Int) - 2) * 8) 0 100) }) := by
    simp only [insertStepAt, hl, hr, Option.map_some', Option.getD_some]
    rfl
  refine ⟨?_, ?_⟩ <;>
    rw [hsteps, spliceInsert_getElem?_self _ (Nat.le_of_lt hlt)] <;>
    simp [makeStep, applyStepPatch, roundHalf]

/-- C8 witness: inserting between the steps with progress 20 and 60 of a
concrete four-step plan yields a new step with progress 40. -/
theorem insertStepAt_defaults_witness :
    ((((insertStepAt ex2060 2 "newM").steps[2]?).map Step.progress =
      some (clamp (Int.fdiv (stepA2060.progress + stepB2060.progress + 1) 2) 0 100)) ∧
     (((insertStepAt ex2060 2 "newM").steps[2]?).map Step.successProbability =
      some (clamp (100 - ((ex2060.steps.length : Int) - 2) * 8) 0 100))) ∧
    ((insertStepAt ex2060 2 "newM").steps[2]?).map Step.progress = some 40 :=
  ⟨insertStepAt_defaults ex2060 2 "newM" stepA2060 stepB2060 (by decide) (by decide) (by decide),
   by decide⟩

/-- C10: calling `updateStep`, `removeStep` or `moveStep` with a stepId
matching no step of the plan leaves the steps sequence unchanged. -/
theorem unknownStepId_noop (plan : Plan) (stepId : String)
    (h : ∀ s ∈ plan.steps, s.id ≠ stepId) :
    (∀ patch, (updateStep plan stepId patch).steps = plan.steps) ∧
    ((removeStep plan stepId).steps = plan.steps) ∧
    (∀ dir, (moveStep plan stepId dir).steps = plan.steps) := by
  have hb : ∀ s ∈ plan.steps, (s.id == stepId) = false := by
    intro s hs
    simpa using h s hs
  refine ⟨?_, ?_, ?_⟩
  · intro patch
    rw [updateStep_steps]
    have hcongr : ∀ s ∈ plan.steps,
        (if s.id == stepId then applyStepPatch s patch else s) = s := by
      intro s hs
      simp [hb s hs]
    rw [List.map_congr_left hcongr]
    simp
  · rw [removeStep_steps]
    apply List.filter_eq_self.mpr
    intro s hs
    simp [bne, hb s hs]
  · intro dir
    rw [moveStep_findIdx_none dir (List.findIdx?_eq_none_iff.mpr ?_)]
    intro s hs
    simp [hb s hs]

/-- C2 counterexample: on the blank plan the `Planned` initial step
counts toward `remainingPlanned` (only `end` is excluded), so
`computePlanStats` returns `remainingPlanned = 1` and
`displayedProbability = min(100, clamp(100 - 10, 0, 100)) = 90`, not the
claimed 0 and 100. -/
theorem blankPlan_stats_cex :
    blankEx.startDate ≤ blankEx.endDate ∧
    ¬((computePlanStats blankEx).remainingPlanned = 0 ∧
      (computePlanStats blankEx).displayedProbability = 100) ∧
    (computePlanStats blankEx).remainingPlanned = 1 ∧
    (computePlanStats blankEx).displayedProbability = 90 := by
  refine ⟨?_, by decide, by decide, by decide⟩
  show ("2026-01-01" : String) ≤ "2026-01-15"
  rw [String.le_iff_toList_le]
  decide

/-- C2 (amended): for every blank plan whose start date is at most its
end date, `computePlanStats` returns `currentProgress = 0`,
`remainingPlanned = 1` (the Planned initial step counts),
`displayedProbability = 90`, and no flags. -/
theorem blankPlan_stats (planId iid eid startD endD : String) (h : startD ≤ endD) :
    computePlanStats (makeBlankPlan planId iid eid startD endD) =
      { currentProgress := 0, displayedProbability := 90, remainingPlanned := 1, flags := [] } := by
  have hnotlt : ¬ endD < startD := not_lt.mpr h
  by_cases hs : startD = "" <;> by_cases he : endD = "" <;>
    simp [computePlanStats, makeBlankPlan, makeStep, applyStepPatch, stepDateFlags,
      decreasesSomewhere, clamp, hs, he, hnotlt, lt_irrefl]

/-- C2 witness: the amended statistics on the concrete blank plan. -/
theorem blankPlan_stats_witness :
    ("2026-01-01" : String) ≤ "2026-01-15" ∧
    computePlanStats blankEx =
      { currentProgress := 0, displayedProbability := 90, remainingPlanned := 1, flags := [] } :=
  ⟨by rw [String.le_iff_toList_le]; decide,
   blankPlan_stats "plan1" "stepI" "stepE" "2026-01-01" "2026-01-15"
     (by rw [String.le_iff_toList_le]; decide)⟩

/-- the flags list exactly as the claim words it: the per-step date
checks are guarded only by the step's own date being set, with no
requirement that the corresponding plan date is set. -/
def flagsPerClaim (plan : Plan) : List String :=
  (if plan.startDate ≠ "" ∧ plan.endDate ≠ "" ∧ plan.endDate < plan.startDate then
    ["Plan start date is after end date."] else []) ++
  (plan.steps.flatMap (fun s =>
    if s.date = "" then []
    else
      (if s.date < plan.startDate then
        ["\"" ++ stepTitleOr s ++ "\" is before plan start."] else []) ++
      (if plan.endDate < s.date then
        ["\"" ++ stepTitleOr s ++ "\" is after plan end."] else []))) ++
  (if ((plan.steps.map Step.progress).zip (plan.steps.map Step.progress).tail).any
      (fun q => decide (q.2 < q.1)) then
    ["Progress decreases between steps. Consider increasing left → right."] else []) ++
  (match plan.steps.find? (fun s => s.type == "initial") with
    | some i => if i.progress ≠ 0 then ["Initial Step progress should be 0."] else []
    | none => []) ++
  (match plan.steps.find? (fun s => s.type == "end") with
    | some e => if e.progress ≠ 100 then ["End Step progress should be 100."] else []
    | none => [])

/-- the claim's flag list with the minimal amendment: each per-step date
check additionally requires the corresponding plan date to be non-empty,
as the code's truthiness guards do. -/
def flagsPerAmendedClaim (plan : Plan) : List String :=
  (if plan.startDate ≠ "" ∧ plan.endDate ≠ "" ∧ plan.endDate < plan.startDate then
    ["Plan start date is after end date."] else []) ++
  (plan.steps.flatMap (fun s =>
    if s.date = "" then []
    else
      (if plan.startDate ≠ "" ∧ s.date < plan.startDate then
        ["\"" ++ stepTitleOr s ++ "\" is before plan start."] else []) ++
      (if plan.endDate ≠ "" ∧ plan.endDate < s.date then
        ["\"" ++ stepTitleOr s ++ "\" is after plan end."] else []))) ++
  (if ((plan.steps.map Step.progress).zip (plan.steps.map Step.progress).tail).any
      (fun q => decide (q.2 < q.1)) then
    ["Progress decreases between steps. Consider increasing left → right."] else []) ++
  (match plan.steps.find? (fun s => s.type == "initial") with
    | some i => if i.progress ≠ 0 then ["Initial Step progress should be 0."] else []
    | none => []) ++
  (match plan.steps.find? (fun s => s.type == "end") with
    | some e => if e.progress ≠ 100 then ["End Step progress should be 100."] else []
    | none => [])

/-- C6 counterexample: on a plan with an empty end date and a dated step,
the claim's flag recipe produces an "after plan end" flag (every
non-empty date compares greater than the empty string) while the code,
whose check is guarded by the end date being set, produces none. -/
theorem flags_order_cex :
    (computePlanStats (makeBlankPlan "p6" "i6" "e6" "2026-01-01" "")).flags = [] ∧
    flagsPerClaim (makeBlankPlan "p6" "i6" "e6" "2026-01-01" "") =
      ["\"(Untitled step)\" is after plan end."] ∧
    (computePlanStats (makeBlankPlan "p6" "i6" "e6" "2026-01-01" "")).flags ≠
      flagsPerClaim (makeBlankPlan "p6" "i6" "e6" "2026-01-01" "") := by
  have h1 : (computePlanStats (makeBlankPlan "p6" "i6" "e6" "2026-01-01" "")).flags = [] := by
    simp [computePlanStats, makeBlankPlan, makeStep, applyStepPatch, stepDateFlags,
      decreasesSomewhere, clamp]
  have h2 : flagsPerClaim (makeBlankPlan "p6" "i6" "e6" "2026-01-01" "") =
      ["\"(Untitled step)\" is after plan end."] := by
    simp [flagsPerClaim, makeBlankPlan, makeStep, applyStepPatch, stepTitleOr]
    decide
  refine ⟨h1, h2, by rw [h1, h2]; simp⟩

/-- C6 (amended): for every plan the flags computed by
`computePlanStats` are exactly the claim's list with the plan-date
guards added: the date-order flag, then per step in order the guarded
before-start and after-end flags, then the single non-monotonic flag,
then the initial-progress flag, then the end-progress flag, without
truncation. -/
theorem flags_match_amended_claim (plan : Plan) :
    (computePlanStats plan).flags = flagsPerAmendedClaim plan := by
  simp only [computePlanStats, flagsPerAmendedClaim]
  rw [decreasesSomewhere_eq_zip]
  rfl

/-- C1 counterexample: the boundary invariant is not preserved by every
editing operation on every input.  `removeStep` called with the blank
plan's `end`-step id removes that step, leaving a plan whose last step
does not have role `end`. -/
theorem removeStep_end_breaks_boundaryInv_cex :
    boundaryInv blankEx ∧ ¬ boundaryInv (removeStep blankEx "stepE") := by
  refine ⟨by decide, by decide⟩

/-- C1 (amended): the boundary invariant is preserved by `moveStep` for
every stepId and direction, and by the other editing operations on the
inputs the UI produces: `insertStepAt` at a strictly interior index,
`removeStep` with an id carried only by intermediate steps, `updateStep`
with a patch that does not set `type`, and `updateActivePlan` with a
patch that does not set `steps`.  (Unguarded inputs can break it, see the
counterexample.) -/
theorem editOps_preserve_boundaryInv (plan : Plan) (hinv : boundaryInv plan) :
    (∀ idx newId, 0 < idx → idx < plan.steps.length →
      boundaryInv (insertStepAt plan idx newId)) ∧
    (∀ stepId, (∀ s ∈ plan.steps, s.id = stepId → s.type = "intermediate") →
      boundaryInv (removeStep plan stepId)) ∧
    (∀ stepId dir, boundaryInv (moveStep plan stepId dir)) ∧
    (∀ stepId patch, patch.type = none → boundaryInv (updateStep plan stepId patch)) ∧
    (∀ patch, patch.steps = none → boundaryInv (updateActivePlan plan patch)) := by
  refine ⟨?_, ?_, ?_, ?_, ?_⟩
  · exact fun idx newId h0 hlen => insertStepAt_interior_inv plan idx newId h0 hlen hinv
  · exact fun stepId hguard => removeStep_inv plan stepId hinv hguard
  · exact fun stepId dir => moveStep_inv plan stepId dir hinv
  · exact fun stepId patch hp => updateStep_inv plan stepId patch hp hinv
  · exact fun patch hp => boundaryInv_of_steps_eq (updateActivePlan_steps_none plan patch hp) hinv

/-- C1 witness: the five preserved cases exercised on concrete plans. -/
theorem editOps_preserve_boundaryInv_witness :
    boundaryInv (insertStepAt blankEx 1 "n1") ∧
    boundaryInv (removeStep ex3 "stepM") ∧
    boundaryInv (moveStep ex3 "stepM" 1) ∧
    boundaryInv (updateStep blankEx "stepI" { date := some "2026-01-02" }) ∧
    boundaryInv (updateActivePlan blankEx { title := some "T" }) :=
  ⟨(editOps_preserve_boundaryInv blankEx (by decide)).1 1 "n1" (by decide) (by decide),
   (editOps_preserve_boundaryInv ex3 (by decide)).2.1 "stepM" (by decide),
   (editOps_preserve_boundaryInv ex3 (by decide)).2.2.1 "stepM" 1,
   (editOps_preserve_boundaryInv blankEx (by decide)).2.2.2.1 "stepI" _ rfl,
   (editOps_preserve_boundaryInv blankEx (by decide)).2.2.2.2 _ rfl⟩

/-- C9: `moveStep` is a no-op when the identified step's role is
`initial` or `end`, or when the target index `idx + dir` falls outside
`[1, len - 2]`; otherwise it swaps the step with its neighbor at the
target index, leaving every other position unchanged. -/
theorem moveStep_spec (plan : Plan) (stepId : String) (dir : Int) (idx : Nat) (st : Step)
    (hinv : boundaryInv plan) (hroles : rolesValid plan) (hdir : dir = -1 ∨ dir = 1)
    (hidx : plan.steps.findIdx? (fun s => s.id == stepId) = some idx)
    (hst : plan.steps[idx]? = some st) :
    ((st.type = "initial" ∨ st.type = "end") → (moveStep plan stepId dir).steps = plan.steps) ∧
    (((idx : Int) + dir < 1 ∨ ((plan.steps.length : Int) - 2) < (idx : Int) + dir) →
      (moveStep plan stepId dir).steps = plan.steps) ∧
    (st.type ≠ "initial" → st.type ≠ "end" →
      1 ≤ (idx : Int) + dir → (idx : Int) + dir ≤ (plan.steps.length : Int) - 2 →
      ∀ j : Nat, (moveStep plan stepId dir).steps[j]? =
        if j = idx then plan.steps[((idx : Int) + dir).toNat]?
        else if j = ((idx : Int) + dir).toNat then plan.steps[idx]?
        else plan.steps[j]?) := by
  have hidxlt : idx < plan.steps.length := (List.getElem?_eq_some_iff.mp hst).1
  have hstmem : st ∈ plan.steps := by
    obtain ⟨hlt, hEq⟩ := List.getElem?_eq_some_iff.mp hst
    exact hEq ▸ List.getElem_mem hlt
  refine ⟨fun hty => ?_, fun hout => ?_, fun hni hne h4 h5 j => ?_⟩
  · have hnotmid : st.type ≠ "intermediate" := by
      rcases hty with h | h <;> rw [h] <;> decide
    rw [moveStep_not_intermediate dir hidx hst hnotmid]
  · rw [moveStep_target_out dir hidx hst hout]
  · have hty : st.type = "intermediate" := by
      rcases hroles st hstmem with h | h | h
      · exact absurd h hni
      · exact h
      · exact absurd h hne
    have htn : ((((idx : Int) + dir).toNat : Int)) = (idx : Int) + dir :=
      Int.toNat_of_nonneg (by omega)
    have htlt : ((idx : Int) + dir).toNat < plan.steps.length := by omega
    obtain ⟨other, hother⟩ : ∃ o, plan.steps[((idx : Int) + dir).toNat]? = some o :=
      ⟨_, List.getElem?_eq_getElem htlt⟩
    have hswap := moveStep_swap dir hidx hst hty h4 h5 hother
    rw [hswap]
    have hneidx : idx ≠ ((idx : Int) + dir).toNat := by
      rcases hdir with h | h <;> omega
    by_cases hj1 : j = idx
    · subst hj1
      rw [if_pos rfl, List.getElem?_set_ne (Ne.symm hneidx),
        List.getElem?_set_self hidxlt]
      exact hother.symm
    · by_cases hj2 : j = ((idx : Int) + dir).toNat
      · subst hj2
        rw [if_neg hj1, if_pos rfl,
          List.getElem?_set_self (by rw [List.length_set]; exact htlt)]
        exact hst.symm
      · rw [if_neg hj1, if_neg hj2,
          List.getElem?_set_ne (fun he => hj2 he.symm),
          List.getElem?_set_ne (fun he => hj1 he.symm)]

/-- C9 witness: moving the intermediate step with progress 20 of the
concrete four-step plan one slot to the right. -/
theorem moveStep_spec_witness :
    ((stepA2060.type = "initial" ∨ stepA2060.type = "end") →
      (moveStep ex2060 "sA" 1).steps = ex2060.steps) ∧
    ((((1 : Nat) : Int) + 1 < 1 ∨ ((ex2060.steps.length : Int) - 2) < ((1 : Nat) : Int) + 1) →
      (moveStep ex2060 "sA" 1).steps = ex2060.steps) ∧
    (stepA2060.type ≠ "initial" → stepA2060.type ≠ "end" →
      1 ≤ ((1 : Nat) : Int) + 1 → ((1 : Nat) : Int) + 1 ≤ (ex2060.steps.length : Int) - 2 →
      ∀ j : Nat, (moveStep ex2060 "sA" 1).steps[j]? =
        if j = 1 then ex2060.steps[(((1 : Nat) : Int) + 1).toNat]?
        else if j = (((1 : Nat) : Int) + 1).toNat then ex2060.steps[1]?
        else ex2060.steps[j]?) :=
  moveStep_spec ex2060 "sA" 1 1 stepA2060 (by decide) (by decide) (Or.inr rfl)
    (by decide) (by decide)

/-- C10 witness: the three operations applied to the blank plan with an
id present on no step. -/
theorem unknownStepId_noop_witness :
    (∀ patch, (updateStep blankEx "ghost" patch).steps = blankEx.steps) ∧
    ((removeStep blankEx "ghost").steps = blankEx.steps) ∧
    (∀ dir, (moveStep blankEx "ghost" dir).steps = blankEx.steps) :=
  unknownStepId_noop blankEx "ghost" (by decide)

end EngagementPlanner
